import Mathlib

set_option maxHeartbeats 1000000

/-
Verification of the recipe-backend's ingredient-amount reconciliation
(api/serializers.py, RecipeCreateUpdateSerializer.create/update) and
shopping-list aggregation (api/views.py, RecipeViewSet.download_shopping_cart),
together with the saved-recipe mark deletion helper (api/utils.py,
perform_action).  The Django ORM tables are embedded as lists of rows; the
auto-increment primary key of Amount is modelled with an explicit counter so
that association identity (claim about in-place updates) is observable.
-/

namespace Foodgram

/-- Ingredient model (recipes/models.py): unique `name` plus a
`measurement_unit`; `id` is the auto primary key. -/
structure Ingredient where
  id : Nat
  name : String
  measurement_unit : String
deriving Repr, DecidableEq

/-- Recipe model (recipes/models.py), restricted to the columns the
reconciliation and aggregation logic reads: the primary key and the `author`
foreign key.  `Meta.default_related_name = 'recipes'`, so `user.recipes`
enumerates the recipes whose `author` is that user. -/
structure Recipe where
  id : Nat
  author : Nat
deriving Repr, DecidableEq

/-- Amount model (recipes/models.py): one row links a `recipe` to an
`ingredient` with a quantity `amount`; `id` is the auto primary key.  The
table carries `UniqueConstraint(name='unique_recipe_ingredient',
fields=('recipe', 'ingredient'))`. -/
structure AmountRow where
  id : Nat
  recipe : Nat
  ingredient : Nat
  amount : Int
deriving Repr, DecidableEq

/-- ShoppingCart and Favorite models (recipes/models.py): structurally
identical marks linking a `user` to a `recipe`, each with a uniqueness
constraint on the (user, recipe) pair. -/
structure MarkRow where
  user : Nat
  recipe : Nat
deriving Repr, DecidableEq

/-- The database state visible to the verified endpoints: the ingredient,
recipe, amount and shopping-cart tables, plus the next auto-increment id for
the Amount table.  List order stands for the (deterministic) enumeration
order the storage layer supplies. -/
structure Store where
  ingredients : List Ingredient
  recipes : List Recipe
  amounts : List AmountRow
  shopping_cart : List MarkRow
  nextAmountId : Nat
deriving Repr, DecidableEq

/-! ## Ingredient-amount reconciliation
(api/serializers.py, `RecipeCreateUpdateSerializer`)

A desired ingredient list entry is a pair (ingredient primary key, amount),
exactly the payload `IngredientCreateSerializer` accepts (`fields = ('id',
'amount')`, where `id` is a `PrimaryKeyRelatedField` into the Ingredient
table). -/

/-- Errors the write path can produce: `validationError` is
`rest_framework.serializers.ValidationError` raised while the serializer
validates input; `integrityError` is the database `IntegrityError` raised
when an insert violates a unique constraint. -/
inductive DbError where
  | validationError (msg : String)
  | integrityError (constraint : String)
deriving Repr, DecidableEq

/-- Write operations performed against the Amount table, recorded so that the
number of creates/deletes an endpoint call performs is observable. -/
inductive WriteOp where
  | created (id recipe ingredient : Nat) (amount : Int)
  | deleted (id : Nat)
deriving Repr, DecidableEq

/-- `PrimaryKeyRelatedField(queryset=Ingredient.objects.all())`: the submitted
ingredient `id` must resolve to an existing Ingredient row. -/
def resolvesIngredient (st : Store) (ref : Nat) : Bool :=
  st.ingredients.any (fun i => i.id == ref)

/-- Serializer-field validation of one amount value: the model field
`PositiveSmallIntegerField(validators=(MinValueValidator(1),))` maps to an
integer field accepting 1 ≤ amount ≤ 32767. -/
def amountFieldValid (q : Int) : Bool :=
  1 ≤ q && q ≤ 32767

/-- Validation of one nested `IngredientCreateSerializer` entry: the
ingredient reference must resolve and the amount must pass field validation. -/
def entryValid (st : Store) (e : Nat × Int) : Bool :=
  resolvesIngredient st e.1 && amountFieldValid e.2

/-- `Amount.objects.create(recipe=..., ingredient=..., amount=...)`: inserting
a row fails with `IntegrityError` when a row for the same (recipe, ingredient)
pair already exists (the `unique_recipe_ingredient` constraint), otherwise
appends the new row under the next auto-increment id. -/
def createAmount (st : Store) (rid ing : Nat) (q : Int) : Except DbError Store :=
  if st.amounts.any (fun a => a.recipe == rid && a.ingredient == ing) then
    Except.error (DbError.integrityError "unique_recipe_ingredient")
  else
    Except.ok { st with
      amounts := st.amounts ++ [⟨st.nextAmountId, rid, ing, q⟩],
      nextAmountId := st.nextAmountId + 1 }

/-- The `for ingredient in ingredients: Amount.objects.create(...)` loop shared
by `create` (serializers.py) and `update` (serializers.py): creates one Amount
row per desired entry, in order, accumulating the write log. -/
def createLoop (st : Store) (rid : Nat) (desired : List (Nat × Int))
    (ops : List WriteOp) : Except DbError (Store × List WriteOp) :=
  match desired with
  | [] => Except.ok (st, ops)
  | e :: rest =>
    match createAmount st rid e.1 e.2 with
    | Except.error err => Except.error err
    | Except.ok st2 =>
      createLoop st2 rid rest (ops ++ [WriteOp.created st.nextAmountId rid e.1 e.2])

/-- `RecipeCreateUpdateSerializer.update` body, ingredient part
(serializers.py): `_ = [item.delete() for item in instance.amount.all()]`
deletes every Amount row of the recipe, then the create loop inserts one row
per desired entry. -/
def updateRecipeIngredients (st : Store) (rid : Nat)
    (desired : List (Nat × Int)) : Except DbError (Store × List WriteOp) :=
  let current := st.amounts.filter (fun a => a.recipe == rid)
  let st1 := { st with amounts := st.amounts.filter (fun a => !(a.recipe == rid)) }
  createLoop st1 rid desired (current.map (fun a => WriteOp.deleted a.id))

/-- The reconcile operation as the endpoint runs it: `serializer.is_valid()`
validates every nested ingredient entry (raising `ValidationError` before any
write), then the `@transaction.atomic` update deletes the recipe's current
associations and recreates them from the desired list. -/
def reconcile (st : Store) (rid : Nat) (desired : List (Nat × Int)) :
    Except DbError (Store × List WriteOp) :=
  if desired.all (entryValid st) then
    updateRecipeIngredients st rid desired
  else
    Except.error (DbError.validationError "invalid ingredients payload")

/-- Transactional wrapper: `@transaction.atomic` means an error rolls the
state back, so a failed call returns the original store, the error, and an
empty committed-write log. -/
def runReconcile (st : Store) (rid : Nat) (desired : List (Nat × Int)) :
    Store × Option DbError × List WriteOp :=
  match reconcile st rid desired with
  | Except.ok (st2, ops) => (st2, none, ops)
  | Except.error e => (st, some e, [])

/-- The associations stored for a recipe, projected to (ingredient, amount)
pairs in table order. -/
def recipeAssociations (st : Store) (rid : Nat) : List (Nat × Int) :=
  (st.amounts.filter (fun a => a.recipe == rid)).map (fun a => (a.ingredient, a.amount))

/-! ## Shopping-list aggregation
(api/views.py, `RecipeViewSet.download_shopping_cart`) -/

/-- `request.user.recipes.all()`: the recipes whose `author` foreign key is the
requesting user (the Recipe model's `default_related_name` is `recipes`). -/
def userRecipes (st : Store) (userId : Nat) : List Recipe :=
  st.recipes.filter (fun r => r.author == userId)

/-- Spec-side comparison definition for the aggregation-input claim: the
recipes linked to the user by a ShoppingCart mark — "the set of recipes the
user has saved (marked in their shopping cart)". -/
def cartRecipesSpec (st : Store) (userId : Nat) : List Recipe :=
  st.recipes.filter (fun r =>
    st.shopping_cart.any (fun m => m.user == userId && m.recipe == r.id))

/-- `recipe.ingredients.all()`: the many-to-many field through Amount, i.e.
the ingredients for which an Amount row of this recipe exists. -/
def recipeIngredients (st : Store) (rid : Nat) : List Ingredient :=
  st.ingredients.filter (fun i =>
    st.amounts.any (fun a => a.recipe == rid && a.ingredient == i.id))

/-- `Amount.objects.get(recipe=recipe, ingredient=ingredient).amount`: the
first (under the uniqueness constraint, the only) matching row's amount.  The
`none` branch corresponds to `DoesNotExist`, unreachable for ingredients
enumerated by `recipeIngredients`. -/
def amountGet (st : Store) (rid iid : Nat) : Int :=
  match st.amounts.find? (fun a => a.recipe == rid && a.ingredient == iid) with
  | some a => a.amount
  | none => 0

/-- One step of building `SHOPPING_LIST`: `if name not in SHOPPING_LIST:
SHOPPING_LIST[name] = 0` followed by `SHOPPING_LIST[name] += amount`; a Python
dict keeps insertion order, modelled by an association list. -/
def addToShoppingList (l : List (String × Int)) (name : String) (amt : Int) :
    List (String × Int) :=
  if l.any (fun p => p.1 == name) then
    l.map (fun p => if p.1 == name then (p.1, p.2 + amt) else p)
  else
    l ++ [(name, amt)]

/-- The inner loop of `download_shopping_cart`: fold one recipe's ingredients
into the running shopping list. -/
def recipeFold (st : Store) (rid : Nat) (acc : List (String × Int))
    (ings : List Ingredient) : List (String × Int) :=
  ings.foldl (fun acc2 i => addToShoppingList acc2 i.name (amountGet st rid i.id)) acc

/-- `download_shopping_cart` aggregation (api/views.py): iterate the user's
recipes, and for each recipe its ingredients, summing amounts keyed by
ingredient name into the insertion-ordered `SHOPPING_LIST`. -/
def download_shopping_cart (st : Store) (userId : Nat) : List (String × Int) :=
  (userRecipes st userId).foldl
    (fun acc r => recipeFold st r.id acc (recipeIngredients st r.id)) []

/-- `get_object_or_404(Ingredient, name=name).measurement_unit`: the unit of
the (unique-named) ingredient; the 404 branch is unreachable for names that
came out of the aggregation. -/
def unitOf (st : Store) (name : String) : String :=
  match st.ingredients.find? (fun i => i.name == name) with
  | some i => i.measurement_unit
  | none => ""

/-- The downloadable document: the header row `['Список покупок:']` followed
by one `f'{name} ({unit}) — {amount}'` line per aggregated entry. -/
def shoppingCartDocument (st : Store) (userId : Nat) : List String :=
  "Список покупок:" ::
    (download_shopping_cart st userId).map
      (fun p => p.1 ++ " (" ++ unitOf st p.1 ++ ") — " ++ toString p.2)

/-! ## Saved-recipe mark deletion (api/utils.py, `perform_action`, DELETE) -/

/-- The DELETE branch of `perform_action`: filter the mark table for the
(user, recipe) pair; if any row matches, delete the matching rows and answer
204, otherwise answer 400 leaving the table unchanged. -/
def performActionDelete (marks : List MarkRow) (u r : Nat) :
    List MarkRow × Nat :=
  let obj := marks.filter (fun m => m.user == u && m.recipe == r)
  if obj.isEmpty then
    (marks, 400)
  else
    (marks.filter (fun m => !(m.user == u && m.recipe == r)), 204)

/-! ## Derived form of a successful reconcile -/

/-- The Amount rows the create loop inserts for a desired list, starting at a
given auto-increment id (used to describe what a successful reconcile
commits). -/
def createdRows (startId rid : Nat) : List (Nat × Int) → List AmountRow
  | [] => []
  | e :: rest => ⟨startId, rid, e.1, e.2⟩ :: createdRows (startId + 1) rid rest

/-- The create operations the create loop logs, in order. -/
def createdOps (startId rid : Nat) : List (Nat × Int) → List WriteOp
  | [] => []
  | e :: rest => WriteOp.created startId rid e.1 e.2 :: createdOps (startId + 1) rid rest

theorem createdRows_proj (startId rid : Nat) (desired : List (Nat × Int)) :
    (createdRows startId rid desired).map (fun a => (a.ingredient, a.amount)) = desired := by
  induction desired generalizing startId with
  | nil => simp [createdRows]
  | cons e rest ih => simp [createdRows, ih]

theorem createdRows_recipe (startId rid : Nat) (desired : List (Nat × Int)) :
    ∀ a ∈ createdRows startId rid desired, a.recipe = rid := by
  induction desired generalizing startId with
  | nil => simp [createdRows]
  | cons e rest ih =>
    intro a ha
    simp only [createdRows, List.mem_cons] at ha
    rcases ha with h | h
    · rw [h]
    · exact ih (startId + 1) a h

theorem createdRows_id_ge (startId rid : Nat) (desired : List (Nat × Int)) :
    ∀ a ∈ createdRows startId rid desired, startId ≤ a.id := by
  induction desired generalizing startId with
  | nil => simp [createdRows]
  | cons e rest ih =>
    intro a ha
    simp only [createdRows, List.mem_cons] at ha
    rcases ha with h | h
    · rw [h]
    · exact Nat.le_of_succ_le (ih (startId + 1) a h)

theorem createdRows_length (startId rid : Nat) (desired : List (Nat × Int)) :
    (createdRows startId rid desired).length = desired.length := by
  induction desired generalizing startId with
  | nil => rfl
  | cons e rest ih => simp [createdRows, ih]

theorem createdOps_length (startId rid : Nat) (desired : List (Nat × Int)) :
    (createdOps startId rid desired).length = desired.length := by
  induction desired generalizing startId with
  | nil => rfl
  | cons e rest ih => simp [createdOps, ih]

theorem createLoop_ok (desired : List (Nat × Int)) :
    ∀ (st : Store) (rid : Nat) (ops : List WriteOp),
    (desired.map Prod.fst).Nodup →
    (∀ e ∈ desired, ∀ a ∈ st.amounts, a.recipe = rid → a.ingredient ≠ e.1) →
    createLoop st rid desired ops =
      Except.ok ({ st with
          amounts := st.amounts ++ createdRows st.nextAmountId rid desired,
          nextAmountId := st.nextAmountId + desired.length },
        ops ++ createdOps st.nextAmountId rid desired) := by
  induction desired with
  | nil =>
    intro st rid ops _ _
    simp [createLoop, createdRows, createdOps]
  | cons e rest ih =>
    intro st rid ops hnd hfresh
    have hchk : st.amounts.any (fun a => a.recipe == rid && a.ingredient == e.1) = false := by
      rw [List.any_eq_false]
      intro a ha
      simp only [Bool.and_eq_true, beq_iff_eq, not_and]
      intro hr
      exact hfresh e (List.mem_cons_self e rest) a ha hr
    rw [List.map_cons] at hnd
    have hcons := List.nodup_cons.mp hnd
    have hfresh2 : ∀ e' ∈ rest,
        ∀ a ∈ st.amounts ++ [⟨st.nextAmountId, rid, e.1, e.2⟩],
        a.recipe = rid → a.ingredient ≠ e'.1 := by
      intro e' he' a ha hr
      rcases List.mem_append.mp ha with h | h
      · exact hfresh e' (List.mem_cons_of_mem e he') a h hr
      · have ha2 : a = (⟨st.nextAmountId, rid, e.1, e.2⟩ : AmountRow) := by simpa using h
        subst ha2
        intro hc
        have hm : e'.1 ∈ rest.map Prod.fst := List.mem_map.mpr ⟨e', he', rfl⟩
        rw [← hc] at hm
        exact hcons.1 hm
    have := ih ({ st with
        amounts := st.amounts ++ [⟨st.nextAmountId, rid, e.1, e.2⟩],
        nextAmountId := st.nextAmountId + 1 }) rid
      (ops ++ [WriteOp.created st.nextAmountId rid e.1 e.2]) hcons.2 hfresh2
    simp only [createLoop, createAmount, hchk, Bool.false_eq_true, if_false] at this ⊢
    rw [this]
    simp [createdRows, createdOps, List.append_assoc]
    omega

/-- The store a successful reconcile leaves behind: the recipe's old Amount
rows removed, the freshly created rows appended, the auto-increment counter
advanced. -/
def reconcileResultStore (st : Store) (rid : Nat) (desired : List (Nat × Int)) : Store :=
  { st with
    amounts := st.amounts.filter (fun a => !(a.recipe == rid)) ++
      createdRows st.nextAmountId rid desired,
    nextAmountId := st.nextAmountId + desired.length }

/-- The write log a successful reconcile commits: one delete per pre-existing
row of the recipe, then one create per desired entry. -/
def reconcileResultOps (st : Store) (rid : Nat) (desired : List (Nat × Int)) : List WriteOp :=
  (st.amounts.filter (fun a => a.recipe == rid)).map (fun a => WriteOp.deleted a.id) ++
    createdOps st.nextAmountId rid desired

theorem updateRecipeIngredients_ok (st : Store) (rid : Nat) (desired : List (Nat × Int))
    (hnd : (desired.map Prod.fst).Nodup) :
    updateRecipeIngredients st rid desired =
      Except.ok (reconcileResultStore st rid desired, reconcileResultOps st rid desired) := by
  have hfresh : ∀ e ∈ desired,
      ∀ a ∈ st.amounts.filter (fun a => !(a.recipe == rid)),
      a.recipe = rid → a.ingredient ≠ e.1 := by
    intro e _ a ha hr
    have := (List.mem_filter.mp ha).2
    rw [hr] at this
    simp at this
  have := createLoop_ok desired
    { st with amounts := st.amounts.filter (fun a => !(a.recipe == rid)) } rid
    ((st.amounts.filter (fun a => a.recipe == rid)).map (fun a => WriteOp.deleted a.id))
    hnd hfresh
  simpa [updateRecipeIngredients, reconcileResultStore, reconcileResultOps] using this

theorem reconcile_ok_eq (st : Store) (rid : Nat) (desired : List (Nat × Int))
    (hv : desired.all (entryValid st) = true)
    (hnd : (desired.map Prod.fst).Nodup) :
    reconcile st rid desired =
      Except.ok (reconcileResultStore st rid desired, reconcileResultOps st rid desired) := by
  rw [reconcile, if_pos hv]
  exact updateRecipeIngredients_ok st rid desired hnd

theorem runReconcile_ok_eq (st : Store) (rid : Nat) (desired : List (Nat × Int))
    (hv : desired.all (entryValid st) = true)
    (hnd : (desired.map Prod.fst).Nodup) :
    runReconcile st rid desired =
      (reconcileResultStore st rid desired, none, reconcileResultOps st rid desired) := by
  rw [runReconcile, reconcile_ok_eq st rid desired hv hnd]

theorem reconcileResultStore_rows (st : Store) (rid : Nat) (desired : List (Nat × Int)) :
    (reconcileResultStore st rid desired).amounts.filter (fun a => a.recipe == rid) =
      createdRows st.nextAmountId rid desired := by
  have hleft : (st.amounts.filter (fun a => !(a.recipe == rid))).filter
      (fun a => a.recipe == rid) = [] := by
    rw [List.filter_filter]
    apply List.filter_eq_nil_iff.mpr
    intro a _
    simp
  have hright : (createdRows st.nextAmountId rid desired).filter
      (fun a => a.recipe == rid) = createdRows st.nextAmountId rid desired := by
    apply List.filter_eq_self.mpr
    intro a ha
    simp [createdRows_recipe st.nextAmountId rid desired a ha]
  rw [reconcileResultStore]
  simp only [List.filter_append, hleft, hright, List.nil_append]

theorem reconcileResultStore_assoc (st : Store) (rid : Nat) (desired : List (Nat × Int)) :
    recipeAssociations (reconcileResultStore st rid desired) rid = desired := by
  rw [recipeAssociations, reconcileResultStore_rows]
  exact createdRows_proj st.nextAmountId rid desired

theorem createLoop_error_of_present (desired : List (Nat × Int)) :
    ∀ (st : Store) (rid : Nat) (ops : List WriteOp) (x : Nat),
    x ∈ desired.map Prod.fst →
    st.amounts.any (fun a => a.recipe == rid && a.ingredient == x) = true →
    createLoop st rid desired ops =
      Except.error (DbError.integrityError "unique_recipe_ingredient") := by
  induction desired with
  | nil =>
    intro st rid ops x hx _
    simp at hx
  | cons e rest ih =>
    intro st rid ops x hx hpresent
    by_cases hchk : st.amounts.any (fun a => a.recipe == rid && a.ingredient == e.1) = true
    · simp [createLoop, createAmount, hchk]
    · have hchk' : st.amounts.any (fun a => a.recipe == rid && a.ingredient == e.1) = false :=
        Bool.eq_false_iff.mpr hchk
      have hne : x ≠ e.1 := by
        intro h
        rw [h] at hpresent
        exact hchk hpresent
      have hx' : x ∈ rest.map Prod.fst := by
        rw [List.map_cons] at hx
        rcases List.mem_cons.mp hx with h | h
        · exact absurd h hne
        · exact h
      have hpresent2 : (st.amounts ++ [(⟨st.nextAmountId, rid, e.1, e.2⟩ : AmountRow)]).any
          (fun a => a.recipe == rid && a.ingredient == x) = true := by
        rw [List.any_append, hpresent]
        rfl
      simp only [createLoop, createAmount, hchk', Bool.false_eq_true, if_false]
      exact ih _ rid _ x hx' hpresent2

theorem createLoop_error_of_dup (desired : List (Nat × Int)) :
    ∀ (st : Store) (rid : Nat) (ops : List WriteOp),
    ¬ (desired.map Prod.fst).Nodup →
    createLoop st rid desired ops =
      Except.error (DbError.integrityError "unique_recipe_ingredient") := by
  induction desired with
  | nil =>
    intro st rid ops h
    exact absurd (by simp) h
  | cons e rest ih =>
    intro st rid ops hdup
    by_cases hchk : st.amounts.any (fun a => a.recipe == rid && a.ingredient == e.1) = true
    · simp [createLoop, createAmount, hchk]
    · have hchk' : st.amounts.any (fun a => a.recipe == rid && a.ingredient == e.1) = false :=
        Bool.eq_false_iff.mpr hchk
      rw [List.map_cons, List.nodup_cons] at hdup
      simp only [createLoop, createAmount, hchk', Bool.false_eq_true, if_false]
      by_cases hmem : e.1 ∈ rest.map Prod.fst
      · apply createLoop_error_of_present rest _ rid _ e.1 hmem
        rw [List.any_append]
        simp
      · exact ih _ rid _ (fun hnd => hdup ⟨hmem, hnd⟩)

theorem entryValid_ingredients_only (st st' : Store) (h : st'.ingredients = st.ingredients)
    (e : Nat × Int) : entryValid st' e = entryValid st e := by
  simp [entryValid, resolvesIngredient, h]

theorem reconcileResultOps_length (st : Store) (rid : Nat) (desired : List (Nat × Int)) :
    (reconcileResultOps st rid desired).length =
      (st.amounts.filter (fun a => a.recipe == rid)).length + desired.length := by
  simp [reconcileResultOps, createdOps_length]

/-! ## Claim theorems: reconciliation -/

/-- C2: for every recipe and every valid desired ingredient list (each
reference resolving, each amount within the validated range, no duplicate
ingredient references), the reconcile operation succeeds and the recipe's
stored associations, projected to (ingredient, amount) pairs, are exactly the
desired list: one association per distinct desired ingredient with the
submitted quantity, and none for any ingredient absent from it. -/
theorem reconcile_converges (st : Store) (rid : Nat) (desired : List (Nat × Int))
    (hv : desired.all (entryValid st) = true)
    (hnd : (desired.map Prod.fst).Nodup) :
    (runReconcile st rid desired).2.1 = none ∧
    recipeAssociations (runReconcile st rid desired).1 rid = desired := by
  rw [runReconcile_ok_eq st rid desired hv hnd]
  exact ⟨rfl, reconcileResultStore_assoc st rid desired⟩

/-- Witness for C2: reconciling recipe 5 (currently holding ingredient 10 at
quantity 2) to the list [(10, 3), (11, 4)] succeeds and stores exactly those
pairs. -/
theorem reconcile_converges_witness :
    (([((10 : Nat), (3 : Int)), (11, 4)].all
        (entryValid ⟨[⟨10, "carrot", "kg"⟩, ⟨11, "salt", "g"⟩], [⟨5, 1⟩],
          [⟨1, 5, 10, 2⟩], [], 2⟩) = true) ∧
      (([((10 : Nat), (3 : Int)), (11, 4)].map Prod.fst).Nodup)) ∧
    ((runReconcile ⟨[⟨10, "carrot", "kg"⟩, ⟨11, "salt", "g"⟩], [⟨5, 1⟩],
        [⟨1, 5, 10, 2⟩], [], 2⟩ 5 [(10, 3), (11, 4)]).2.1 = none ∧
      recipeAssociations (runReconcile ⟨[⟨10, "carrot", "kg"⟩, ⟨11, "salt", "g"⟩],
        [⟨5, 1⟩], [⟨1, 5, 10, 2⟩], [], 2⟩ 5 [(10, 3), (11, 4)]).1 5 = [(10, 3), (11, 4)]) :=
  ⟨⟨by decide, by decide⟩, reconcile_converges _ 5 _ (by decide) (by decide)⟩

/-- C3 counterexample: recipe 5 holds association record id 1 (ingredient 10,
quantity 2); reconciling with [(10, 3)] — ingredient 10 stays in the desired
list with a changed quantity — leaves a single association that is a fresh
record with id 2: the existing record was deleted and a new one created, so
identity is not preserved. -/
theorem reconcile_in_place_cex :
    (runReconcile ⟨[⟨10, "carrot", "kg"⟩], [⟨5, 1⟩], [⟨1, 5, 10, 2⟩], [], 2⟩
        5 [(10, 3)]).2.1 = none ∧
    (runReconcile ⟨[⟨10, "carrot", "kg"⟩], [⟨5, 1⟩], [⟨1, 5, 10, 2⟩], [], 2⟩
        5 [(10, 3)]).1.amounts = [⟨2, 5, 10, 3⟩] := by
  decide

/-- C3 (amended): the update path deletes every existing association of the
recipe and creates fresh rows; no pre-existing association record survives a
successful reconcile, even when its ingredient stays in the desired list. -/
theorem reconcile_discards_old_identities (st : Store) (rid : Nat)
    (desired : List (Nat × Int))
    (hv : desired.all (entryValid st) = true)
    (hnd : (desired.map Prod.fst).Nodup)
    (hid : ∀ a ∈ st.amounts, a.id < st.nextAmountId) :
    ∀ a ∈ st.amounts, a.recipe = rid → a ∉ (runReconcile st rid desired).1.amounts := by
  intro a ha hr hmem
  rw [runReconcile_ok_eq st rid desired hv hnd] at hmem
  dsimp only [reconcileResultStore] at hmem
  rcases List.mem_append.mp hmem with h | h
  · have := (List.mem_filter.mp h).2
    rw [hr] at this
    simp at this
  · have h1 := createdRows_id_ge st.nextAmountId rid desired a h
    have h2 := hid a ha
    omega

/-- Witness for C3 (amended): the pre-existing record ⟨1, 5, 10, 2⟩ is gone
after reconciling recipe 5 with [(10, 3)]. -/
theorem reconcile_discards_old_identities_witness :
    (([((10 : Nat), (3 : Int))].all
        (entryValid ⟨[⟨10, "carrot", "kg"⟩], [⟨5, 1⟩], [⟨1, 5, 10, 2⟩], [], 2⟩) = true) ∧
      (([((10 : Nat), (3 : Int))].map Prod.fst).Nodup) ∧
      (∀ a ∈ ([⟨1, 5, 10, 2⟩] : List AmountRow), a.id < 2)) ∧
    ((⟨1, 5, 10, 2⟩ : AmountRow) ∉
      (runReconcile ⟨[⟨10, "carrot", "kg"⟩], [⟨5, 1⟩], [⟨1, 5, 10, 2⟩], [], 2⟩
        5 [(10, 3)]).1.amounts) :=
  ⟨⟨by decide, by decide, by decide⟩,
    reconcile_discards_old_identities
      ⟨[⟨10, "carrot", "kg"⟩], [⟨5, 1⟩], [⟨1, 5, 10, 2⟩], [], 2⟩ 5 [(10, 3)]
      (by decide) (by decide) (by decide) ⟨1, 5, 10, 2⟩ (by decide) rfl⟩

/-- C4 counterexample: reconciling recipe 5 with [(10, 3)] and then again with
the same list does not leave the state identical (the surviving row and the
auto-increment counter change), and the second call performs a delete and a
create rather than zero operations. -/
theorem reconcile_twice_cex :
    (runReconcile ⟨[⟨10, "carrot", "kg"⟩], [⟨5, 1⟩], [⟨1, 5, 10, 2⟩], [], 2⟩
        5 [(10, 3)]).1
      = ⟨[⟨10, "carrot", "kg"⟩], [⟨5, 1⟩], [⟨2, 5, 10, 3⟩], [], 3⟩ ∧
    runReconcile ⟨[⟨10, "carrot", "kg"⟩], [⟨5, 1⟩], [⟨2, 5, 10, 3⟩], [], 3⟩
        5 [(10, 3)]
      = (⟨[⟨10, "carrot", "kg"⟩], [⟨5, 1⟩], [⟨3, 5, 10, 3⟩], [], 4⟩, none,
          [WriteOp.deleted 2, WriteOp.created 3 5 10 3]) := by
  decide

/-- C4 (amended): reconciling twice in a row with the same valid desired list
is idempotent only observably: the second call succeeds and leaves the
recipe's associations (as ingredient/amount pairs) unchanged, but instead of
performing zero operations it again deletes each of the recipe's associations
and recreates them — one delete plus one create per desired entry. -/
theorem reconcile_twice_observably_idempotent (st : Store) (rid : Nat)
    (desired : List (Nat × Int))
    (hv : desired.all (entryValid st) = true)
    (hnd : (desired.map Prod.fst).Nodup) :
    (runReconcile (runReconcile st rid desired).1 rid desired).2.1 = none ∧
    recipeAssociations (runReconcile (runReconcile st rid desired).1 rid desired).1 rid =
      recipeAssociations (runReconcile st rid desired).1 rid ∧
    (runReconcile (runReconcile st rid desired).1 rid desired).2.2.length =
      desired.length + desired.length := by
  rw [runReconcile_ok_eq st rid desired hv hnd]
  dsimp only
  have hing : (reconcileResultStore st rid desired).ingredients = st.ingredients := rfl
  have hv1 : desired.all (entryValid (reconcileResultStore st rid desired)) = true := by
    have h := funext (entryValid_ingredients_only st (reconcileResultStore st rid desired) hing)
    rw [h]
    exact hv
  rw [runReconcile_ok_eq (reconcileResultStore st rid desired) rid desired hv1 hnd]
  dsimp only
  refine ⟨rfl, ?_, ?_⟩
  · rw [reconcileResultStore_assoc, reconcileResultStore_assoc]
  · rw [reconcileResultOps_length, reconcileResultStore_rows, createdRows_length]

/-- Witness for C4 (amended): after reconciling recipe 5 with [(10, 3)], a
second identical call keeps the stored pairs but logs 1 + 1 operations. -/
theorem reconcile_twice_observably_idempotent_witness :
    (([((10 : Nat), (3 : Int))].all
        (entryValid ⟨[⟨10, "carrot", "kg"⟩], [⟨5, 1⟩], [⟨1, 5, 10, 2⟩], [], 2⟩) = true) ∧
      (([((10 : Nat), (3 : Int))].map Prod.fst).Nodup)) ∧
    ((runReconcile (runReconcile ⟨[⟨10, "carrot", "kg"⟩], [⟨5, 1⟩],
        [⟨1, 5, 10, 2⟩], [], 2⟩ 5 [(10, 3)]).1 5 [(10, 3)]).2.1 = none ∧
      recipeAssociations (runReconcile (runReconcile ⟨[⟨10, "carrot", "kg"⟩], [⟨5, 1⟩],
          [⟨1, 5, 10, 2⟩], [], 2⟩ 5 [(10, 3)]).1 5 [(10, 3)]).1 5 =
        recipeAssociations (runReconcile ⟨[⟨10, "carrot", "kg"⟩], [⟨5, 1⟩],
          [⟨1, 5, 10, 2⟩], [], 2⟩ 5 [(10, 3)]).1 5 ∧
      (runReconcile (runReconcile ⟨[⟨10, "carrot", "kg"⟩], [⟨5, 1⟩],
          [⟨1, 5, 10, 2⟩], [], 2⟩ 5 [(10, 3)]).1 5 [(10, 3)]).2.2.length = 1 + 1) :=
  ⟨⟨by decide, by decide⟩,
    reconcile_twice_observably_idempotent
      ⟨[⟨10, "carrot", "kg"⟩], [⟨5, 1⟩], [⟨1, 5, 10, 2⟩], [], 2⟩ 5 [(10, 3)]
      (by decide) (by decide)⟩

/-- C5 counterexample: a desired list naming ingredient 10 twice is not
rejected by serializer validation — the operation fails with the database
`IntegrityError` of the `unique_recipe_ingredient` constraint (the transaction
rolls back, so nothing is written). -/
theorem reconcile_duplicate_cex :
    runReconcile ⟨[⟨10, "carrot", "kg"⟩], [⟨5, 1⟩], [], [], 1⟩ 5 [(10, 2), (10, 3)]
      = (⟨[⟨10, "carrot", "kg"⟩], [⟨5, 1⟩], [], [], 1⟩,
          some (DbError.integrityError "unique_recipe_ingredient"), []) := by
  decide

/-- C5 (amended): a desired list whose entries are individually valid but
which contains the same ingredient reference twice makes the create loop
violate the `unique_recipe_ingredient` constraint: the call fails with the
database `IntegrityError` (not a serializer `ValidationError`), and by
transaction atomicity the store is unchanged with no committed write. -/
theorem reconcile_duplicate_integrity (st : Store) (rid : Nat)
    (desired : List (Nat × Int))
    (hv : desired.all (entryValid st) = true)
    (hdup : ¬ (desired.map Prod.fst).Nodup) :
    runReconcile st rid desired =
      (st, some (DbError.integrityError "unique_recipe_ingredient"), []) := by
  rw [runReconcile, reconcile, if_pos hv, updateRecipeIngredients]
  rw [createLoop_error_of_dup desired _ rid _ hdup]

/-- Witness for C5 (amended): the duplicate list [(10, 2), (10, 3)] on a store
holding ingredient 10 triggers the integrity failure and leaves the store as
it was. -/
theorem reconcile_duplicate_integrity_witness :
    (([((10 : Nat), (2 : Int)), (10, 3)].all
        (entryValid ⟨[⟨10, "carrot", "kg"⟩], [⟨5, 1⟩], [⟨1, 5, 10, 7⟩], [], 2⟩) = true) ∧
      ¬ (([((10 : Nat), (2 : Int)), (10, 3)].map Prod.fst).Nodup)) ∧
    runReconcile ⟨[⟨10, "carrot", "kg"⟩], [⟨5, 1⟩], [⟨1, 5, 10, 7⟩], [], 2⟩
        5 [(10, 2), (10, 3)]
      = (⟨[⟨10, "carrot", "kg"⟩], [⟨5, 1⟩], [⟨1, 5, 10, 7⟩], [], 2⟩,
          some (DbError.integrityError "unique_recipe_ingredient"), []) :=
  ⟨⟨by decide, by decide⟩,
    reconcile_duplicate_integrity
      ⟨[⟨10, "carrot", "kg"⟩], [⟨5, 1⟩], [⟨1, 5, 10, 7⟩], [], 2⟩ 5 [(10, 2), (10, 3)]
      (by decide) (by decide)⟩

/-- C6: a reconcile call containing an entry whose quantity is zero or
negative fails serializer validation (`MinValueValidator(1)` on the amount
field) with a `ValidationError`, and writes nothing: the store is returned
exactly as it was with an empty committed-write log. -/
theorem reconcile_nonpositive_rejected (st : Store) (rid : Nat)
    (desired : List (Nat × Int)) (e : Nat × Int)
    (he : e ∈ desired) (hq : e.2 ≤ 0) :
    runReconcile st rid desired =
      (st, some (DbError.validationError "invalid ingredients payload"), []) := by
  have hv : desired.all (entryValid st) = false := by
    rw [List.all_eq_false]
    refine ⟨e, he, ?_⟩
    simp only [entryValid, amountFieldValid, Bool.and_eq_true, decide_eq_true_eq]
    rintro ⟨-, h1, -⟩
    omega
  rw [runReconcile, reconcile, if_neg (by simp [hv])]

/-- Witness for C6: quantity 0 for ingredient 10 is rejected with a
`ValidationError` and recipe 5's stored association is untouched. -/
theorem reconcile_nonpositive_rejected_witness :
    (((10 : Nat), (0 : Int)) ∈ [((10 : Nat), (0 : Int))] ∧
      ((10 : Nat), (0 : Int)).2 ≤ 0) ∧
    runReconcile ⟨[⟨10, "carrot", "kg"⟩], [⟨5, 1⟩], [⟨1, 5, 10, 2⟩], [], 2⟩ 5 [(10, 0)]
      = (⟨[⟨10, "carrot", "kg"⟩], [⟨5, 1⟩], [⟨1, 5, 10, 2⟩], [], 2⟩,
          some (DbError.validationError "invalid ingredients payload"), []) :=
  ⟨⟨by decide, by decide⟩,
    reconcile_nonpositive_rejected
      ⟨[⟨10, "carrot", "kg"⟩], [⟨5, 1⟩], [⟨1, 5, 10, 2⟩], [], 2⟩ 5 [(10, 0)]
      (10, 0) (by decide) (by decide)⟩

/-- C9 counterexample: an empty desired list is not rejected — reconciling
recipe 5 (which holds one association) with [] succeeds, committing the
deletion of that association: a successful write, not a validation error. -/
theorem reconcile_empty_cex :
    runReconcile ⟨[⟨10, "carrot", "kg"⟩], [⟨5, 1⟩], [⟨1, 5, 10, 2⟩], [], 2⟩ 5 []
      = (⟨[⟨10, "carrot", "kg"⟩], [⟨5, 1⟩], [], [], 2⟩, none, [WriteOp.deleted 1]) := by
  decide

/-- C9 (amended): the serializer's `validate` only rejects absent fields, so
an empty ingredients list passes validation; reconciling any recipe with the
empty desired list always succeeds and leaves the recipe with zero
associations (deleting any it had). -/
theorem reconcile_empty_succeeds (st : Store) (rid : Nat) :
    (runReconcile st rid []).2.1 = none ∧
    recipeAssociations (runReconcile st rid []).1 rid = [] := by
  rw [runReconcile_ok_eq st rid [] (by simp) (by simp)]
  exact ⟨rfl, reconcileResultStore_assoc st rid []⟩

/-! ## Claim theorems: saved-recipe marks and aggregation input -/

theorem length_le_one_of_nodup_all_eq {α : Type} (l : List α) (c : α)
    (hnd : l.Nodup) (h : ∀ x ∈ l, x = c) : l.length ≤ 1 := by
  match l with
  | [] => simp
  | [a] => simp
  | a :: b :: t =>
    exfalso
    have ha := h a (by simp)
    have hb := h b (by simp)
    rw [List.nodup_cons] at hnd
    exact hnd.1 (by rw [ha, ← hb]; simp)

theorem filter_length_split {α : Type} (l : List α) (p : α → Bool) :
    (l.filter p).length + (l.filter (fun x => !(p x))).length = l.length := by
  induction l with
  | nil => rfl
  | cons a t ih =>
    by_cases hp : p a = true
    · simp [List.filter_cons, hp]
      omega
    · have hp' : p a = false := Bool.eq_false_iff.mpr hp
      simp [List.filter_cons, hp']
      omega

/-- C10: deleting a saved-recipe mark (favorite or shopping-cart) when no
(user, recipe) mark exists answers 400 and leaves the mark table unchanged;
when the mark exists (under the table's uniqueness invariant on the pair) the
call answers 204 and removes exactly that one mark. -/
theorem perform_action_delete_behavior (marks : List MarkRow) (u r : Nat)
    (hnd : (marks.map (fun m => (m.user, m.recipe))).Nodup) :
    (marks.any (fun m => m.user == u && m.recipe == r) = false →
      performActionDelete marks u r = (marks, 400)) ∧
    (marks.any (fun m => m.user == u && m.recipe == r) = true →
      (performActionDelete marks u r).2 = 204 ∧
      (performActionDelete marks u r).1 =
        marks.filter (fun m => !(m.user == u && m.recipe == r)) ∧
      (performActionDelete marks u r).1.length + 1 = marks.length) := by
  constructor
  · intro hnone
    rw [performActionDelete]
    have hfil : marks.filter (fun m => m.user == u && m.recipe == r) = [] := by
      apply List.filter_eq_nil_iff.mpr
      intro a ha
      exact List.any_eq_false.mp hnone a ha
    simp [hfil]
  · intro hsome
    have hall : ∀ x ∈ marks.filter (fun m => m.user == u && m.recipe == r),
        x = (⟨u, r⟩ : MarkRow) := by
      intro x hx
      have hpx := (List.mem_filter.mp hx).2
      simp only [Bool.and_eq_true, beq_iff_eq] at hpx
      cases x
      simp_all
    have hsub := (List.filter_sublist marks (p := fun m => m.user == u && m.recipe == r))
    have hone : (marks.filter (fun m => m.user == u && m.recipe == r)).length = 1 := by
      have hle := length_le_one_of_nodup_all_eq _ (⟨u, r⟩ : MarkRow)
        (hsub.nodup (List.Nodup.of_map _ hnd)) hall
      rcases List.any_eq_true.mp hsome with ⟨x, hx, hpx⟩
      have hmem : x ∈ marks.filter (fun m => m.user == u && m.recipe == r) :=
        List.mem_filter.mpr ⟨hx, hpx⟩
      have hpos : 0 < (marks.filter (fun m => m.user == u && m.recipe == r)).length :=
        List.length_pos.mpr (List.ne_nil_of_mem hmem)
      omega
    have hne : (marks.filter (fun m => m.user == u && m.recipe == r)).isEmpty = false := by
      rcases List.length_eq_one.mp hone with ⟨a, hfa⟩
      rw [hfa]
      rfl
    rw [performActionDelete]
    simp only [hne, Bool.false_eq_true, if_false]
    refine ⟨by trivial, by trivial, ?_⟩
    have hsplit := filter_length_split marks (fun m => m.user == u && m.recipe == r)
    omega

/-- Witness for C10: with marks {(1,7), (2,7)}, deleting (1,7) answers 204
removing only that mark, and a second delete of the now-absent (1,7) answers
400 leaving the table unchanged. -/
theorem perform_action_delete_behavior_witness :
    (([⟨1, 7⟩, ⟨2, 7⟩] : List MarkRow).map (fun m => (m.user, m.recipe))).Nodup ∧
    ((([⟨1, 7⟩, ⟨2, 7⟩] : List MarkRow).any
        (fun m => m.user == 1 && m.recipe == 7) = false →
      performActionDelete [⟨1, 7⟩, ⟨2, 7⟩] 1 7 = ([⟨1, 7⟩, ⟨2, 7⟩], 400)) ∧
    ((([⟨1, 7⟩, ⟨2, 7⟩] : List MarkRow).any
        (fun m => m.user == 1 && m.recipe == 7) = true →
      (performActionDelete [⟨1, 7⟩, ⟨2, 7⟩] 1 7).2 = 204 ∧
      (performActionDelete [⟨1, 7⟩, ⟨2, 7⟩] 1 7).1 =
        ([⟨1, 7⟩, ⟨2, 7⟩] : List MarkRow).filter
          (fun m => !(m.user == 1 && m.recipe == 7)) ∧
      (performActionDelete [⟨1, 7⟩, ⟨2, 7⟩] 1 7).1.length + 1 =
        ([⟨1, 7⟩, ⟨2, 7⟩] : List MarkRow).length))) :=
  ⟨by decide, perform_action_delete_behavior [⟨1, 7⟩, ⟨2, 7⟩] 1 7 (by decide)⟩

/-- C1 (code-bug evaluation): user 1 authored recipe 7 and has only recipe 8
(authored by user 2) in their shopping cart; `download_shopping_cart`
aggregates the authored recipe 7 (`request.user.recipes.all()`), not the
cart-marked recipe 8, so its input set differs from the ShoppingCart-linked
set and the produced list shows recipe 7's salt instead of recipe 8's
carrot. -/
theorem download_shopping_cart_wrong_input_eval :
    userRecipes ⟨[⟨10, "carrot", "kg"⟩, ⟨11, "salt", "g"⟩], [⟨7, 1⟩, ⟨8, 2⟩],
        [⟨1, 7, 11, 3⟩, ⟨2, 8, 10, 4⟩], [⟨1, 8⟩], 3⟩ 1 = [⟨7, 1⟩] ∧
    cartRecipesSpec ⟨[⟨10, "carrot", "kg"⟩, ⟨11, "salt", "g"⟩], [⟨7, 1⟩, ⟨8, 2⟩],
        [⟨1, 7, 11, 3⟩, ⟨2, 8, 10, 4⟩], [⟨1, 8⟩], 3⟩ 1 = [⟨8, 2⟩] ∧
    download_shopping_cart ⟨[⟨10, "carrot", "kg"⟩, ⟨11, "salt", "g"⟩], [⟨7, 1⟩, ⟨8, 2⟩],
        [⟨1, 7, 11, 3⟩, ⟨2, 8, 10, 4⟩], [⟨1, 8⟩], 3⟩ 1 = [("salt", 3)] := by
  decide

/-- C8 (code-bug evaluation): user 1's shopping cart is empty, yet because the
aggregation iterates the user's authored recipes it emits a line for recipe
7's salt instead of the header-only document the claim requires for an empty
saved-recipe collection. -/
theorem download_shopping_cart_empty_cart_eval :
    cartRecipesSpec ⟨[⟨11, "salt", "g"⟩], [⟨7, 1⟩], [⟨1, 7, 11, 3⟩], [], 2⟩ 1 = [] ∧
    shoppingCartDocument ⟨[⟨11, "salt", "g"⟩], [⟨7, 1⟩], [⟨1, 7, 11, 3⟩], [], 2⟩ 1
      = ["Список покупок:", "salt (g) — 3"] := by
  refine ⟨by decide, ?_⟩
  rfl

/-! ## Claim C7: the aggregation sums quantities keyed by ingredient name -/

/-- Name carried by an ingredient id in the Ingredient table. -/
def ingredientName (st : Store) (iid : Nat) : Option String :=
  (st.ingredients.find? (fun i => i.id == iid)).map (fun i => i.name)

/-- Total recorded for a name in an aggregated list (0 when absent). -/
def totalFor (l : List (String × Int)) (name : String) : Int :=
  ((l.filter (fun p => p.1 == name)).map (fun p => p.2)).sum

/-- The claim's specification sum: the quantities of every Amount row of the
given recipe whose ingredient carries the given name. -/
def assocSumFor (st : Store) (rid : Nat) (name : String) : Int :=
  ((st.amounts.filter (fun a =>
      a.recipe == rid && ingredientName st a.ingredient == some name)).map
    (fun a => a.amount)).sum

theorem totalFor_append (l1 l2 : List (String × Int)) (name : String) :
    totalFor (l1 ++ l2) name = totalFor l1 name + totalFor l2 name := by
  simp [totalFor, List.filter_append]

theorem filter_key_length_le_one (l : List (String × Int)) (n : String)
    (hnd : (l.map Prod.fst).Nodup) :
    (l.filter (fun p => p.1 == n)).length ≤ 1 := by
  have hsub : ((l.filter (fun p => p.1 == n)).map Prod.fst).Sublist (l.map Prod.fst) :=
    List.Sublist.map Prod.fst (List.filter_sublist l)
  have hnd2 := hsub.nodup hnd
  have hall : ∀ x ∈ (l.filter (fun p => p.1 == n)).map Prod.fst, x = n := by
    intro x hx
    rcases List.mem_map.mp hx with ⟨p, hp, hpx⟩
    have := (List.mem_filter.mp hp).2
    rw [← hpx]
    simpa using this
  have := length_le_one_of_nodup_all_eq _ n hnd2 hall
  simpa using this

theorem totalFor_addToShoppingList (l : List (String × Int)) (n : String) (x : Int)
    (m : String) (hnd : (l.map Prod.fst).Nodup) :
    totalFor (addToShoppingList l n x) m =
      totalFor l m + (if n = m then x else 0) := by
  by_cases hany : l.any (fun p => p.1 == n) = true
  · rw [addToShoppingList, if_pos (by simpa using hany)]
    rw [totalFor, List.filter_map]
    have hpred : l.filter ((fun p : String × Int => p.1 == m) ∘
        (fun p : String × Int => if p.1 == n then (p.1, p.2 + x) else p)) =
        l.filter (fun p => p.1 == m) := by
      apply List.filter_congr
      intro q _
      by_cases h : (q.1 == n) = true
      · simp [Function.comp, h]
      · simp [Function.comp, h]
    rw [hpred, List.map_map]
    by_cases hnm : n = m
    · subst hnm
      have hone : (l.filter (fun p => p.1 == n)).length = 1 := by
        have hle := filter_key_length_le_one l n hnd
        rcases List.any_eq_true.mp hany with ⟨q, hq, hpq⟩
        have hmem : q ∈ l.filter (fun p => p.1 == n) := List.mem_filter.mpr ⟨hq, hpq⟩
        have hpos := List.length_pos.mpr (List.ne_nil_of_mem hmem)
        omega
      rcases List.length_eq_one.mp hone with ⟨q0, hq0⟩
      have hq0n : (q0.1 == n) = true := by
        have hq0mem : q0 ∈ l.filter (fun p => p.1 == n) := by
          rw [hq0]
          simp
        exact (List.mem_filter.mp hq0mem).2
      rw [totalFor, hq0, if_pos rfl]
      simp [Function.comp, hq0n, show q0.1 = n by simpa using hq0n]
    · rw [totalFor, if_neg hnm]
      have hmapid : (l.filter (fun p => p.1 == m)).map ((fun p : String × Int => p.2) ∘
          (fun p : String × Int => if p.1 == n then (p.1, p.2 + x) else p)) =
          (l.filter (fun p => p.1 == m)).map (fun p => p.2) := by
        apply List.map_congr_left
        intro q hq
        have hqm := (List.mem_filter.mp hq).2
        have hqn : ¬ (q.1 == n) = true := by
          simp only [beq_iff_eq] at hqm ⊢
          rw [hqm]
          exact fun h => hnm h.symm
        simp [Function.comp, hqn]
      rw [hmapid]
      omega
  · have hany' : l.any (fun p => p.1 == n) = false := Bool.eq_false_iff.mpr hany
    rw [addToShoppingList, if_neg (by simp [hany'])]
    rw [totalFor_append]
    by_cases hnm : n = m
    · subst hnm
      simp [totalFor]
    · have : ((n, x).1 == m) = false := by
        simpa using hnm
      simp [totalFor, this, hnm]

theorem keys_addToShoppingList (l : List (String × Int)) (n : String) (x : Int)
    (hnd : (l.map Prod.fst).Nodup) :
    ((addToShoppingList l n x).map Prod.fst).Nodup := by
  by_cases hany : l.any (fun p => p.1 == n) = true
  · rw [addToShoppingList, if_pos (by simpa using hany)]
    have hmap : (l.map (fun p : String × Int =>
        if p.1 == n then (p.1, p.2 + x) else p)).map Prod.fst = l.map Prod.fst := by
      rw [List.map_map]
      apply List.map_congr_left
      intro q _
      by_cases h : (q.1 == n) = true
      · simp [Function.comp, h]
      · simp [Function.comp, h]
    rw [hmap]
    exact hnd
  · have hany' : l.any (fun p => p.1 == n) = false := Bool.eq_false_iff.mpr hany
    rw [addToShoppingList, if_neg (by simp [hany'])]
    rw [List.map_append, List.nodup_append]
    refine ⟨hnd, by simp, ?_⟩
    intro a ha hb
    simp only [List.map_cons, List.map_nil, List.mem_cons, List.not_mem_nil,
      or_false] at hb
    subst hb
    rcases List.mem_map.mp ha with ⟨q, hq, hqn⟩
    have hq' := List.any_eq_false.mp hany' q hq
    simp only [beq_iff_eq] at hq'
    exact hq' hqn

theorem recipeFold_spec (st : Store) (rid : Nat) (m : String) (ings : List Ingredient) :
    ∀ acc : List (String × Int), (acc.map Prod.fst).Nodup →
    totalFor (recipeFold st rid acc ings) m =
      totalFor acc m +
        ((ings.filter (fun i => i.name == m)).map (fun i => amountGet st rid i.id)).sum ∧
    ((recipeFold st rid acc ings).map Prod.fst).Nodup := by
  induction ings with
  | nil =>
    intro acc hnd
    refine ⟨by simp [recipeFold], by simpa [recipeFold] using hnd⟩
  | cons i t ih =>
    intro acc hnd
    have hstep : recipeFold st rid acc (i :: t) =
        recipeFold st rid (addToShoppingList acc i.name (amountGet st rid i.id)) t := rfl
    have hnd2 := keys_addToShoppingList acc i.name (amountGet st rid i.id) hnd
    obtain ⟨ihTot, ihNd⟩ := ih _ hnd2
    rw [hstep]
    refine ⟨?_, ihNd⟩
    rw [ihTot, totalFor_addToShoppingList acc i.name _ m hnd]
    by_cases him : (i.name == m) = true
    · have heq : i.name = m := by simpa using him
      simp only [List.filter_cons, him, if_true, List.map_cons, List.sum_cons, if_pos heq]
      omega
    · have hne : ¬ i.name = m := by simpa using him
      have him' : (i.name == m) = false := Bool.eq_false_iff.mpr him
      simp only [List.filter_cons, him', Bool.false_eq_true, if_false, if_neg hne]
      omega

theorem recipesFold_spec (st : Store) (m : String) (rs : List Recipe) :
    ∀ acc : List (String × Int), (acc.map Prod.fst).Nodup →
    totalFor (rs.foldl
        (fun acc2 r => recipeFold st r.id acc2 (recipeIngredients st r.id)) acc) m =
      totalFor acc m + (rs.map (fun r =>
        (((recipeIngredients st r.id).filter (fun i => i.name == m)).map
          (fun i => amountGet st r.id i.id)).sum)).sum ∧
    ((rs.foldl
        (fun acc2 r => recipeFold st r.id acc2 (recipeIngredients st r.id)) acc).map
      Prod.fst).Nodup := by
  induction rs with
  | nil =>
    intro acc hnd
    exact ⟨by simp, by simpa using hnd⟩
  | cons r t ih =>
    intro acc hnd
    obtain ⟨hTot1, hNd1⟩ := recipeFold_spec st r.id m (recipeIngredients st r.id) acc hnd
    obtain ⟨hTot2, hNd2⟩ := ih (recipeFold st r.id acc (recipeIngredients st r.id)) hNd1
    rw [List.foldl_cons]
    refine ⟨?_, hNd2⟩
    rw [hTot2, hTot1, List.map_cons, List.sum_cons]
    omega

theorem download_total (st : Store) (u : Nat) (m : String) :
    totalFor (download_shopping_cart st u) m =
      ((userRecipes st u).map (fun r =>
        (((recipeIngredients st r.id).filter (fun i => i.name == m)).map
          (fun i => amountGet st r.id i.id)).sum)).sum := by
  have h := (recipesFold_spec st m (userRecipes st u) [] (by simp)).1
  rw [download_shopping_cart]
  rw [h]
  simp [totalFor]

/-- First matching row's amount in a row list (under the uniqueness
constraint, the unique one); 0 on the unreachable missing branch. -/
def rowAmt (rows : List AmountRow) (iid : Nat) : Int :=
  match rows.find? (fun a => a.ingredient == iid) with
  | some a => a.amount
  | none => 0

theorem any_congr_pointwise {α : Type} (l : List α) (p q : α → Bool)
    (h : ∀ a ∈ l, p a = q a) : l.any p = l.any q := by
  induction l with
  | nil => rfl
  | cons a t ih =>
    rw [List.any_cons, List.any_cons, h a (by simp),
      ih (fun b hb => h b (by simp [hb]))]

theorem find?_congr_pointwise {α : Type} (l : List α) (p q : α → Bool)
    (h : ∀ a ∈ l, p a = q a) : l.find? p = l.find? q := by
  induction l with
  | nil => rfl
  | cons a t ih =>
    by_cases hp : p a = true
    · rw [List.find?_cons_of_pos _ hp, List.find?_cons_of_pos _ (by rw [← h a (by simp)]; exact hp)]
    · rw [List.find?_cons_of_neg _ hp,
        List.find?_cons_of_neg _ (by rw [← h a (by simp)]; exact hp),
        ih (fun b hb => h b (by simp [hb]))]

theorem find?_filter_comm {α : Type} (l : List α) (p q : α → Bool) :
    (l.filter p).find? q = l.find? (fun x => p x && q x) := by
  induction l with
  | nil => rfl
  | cons a t ih =>
    by_cases hp : p a = true
    · rw [List.filter_cons_of_pos hp]
      by_cases hq : q a = true
      · rw [List.find?_cons_of_pos _ hq, List.find?_cons_of_pos _ (by simp [hp, hq])]
      · rw [List.find?_cons_of_neg _ hq, List.find?_cons_of_neg, ih]
        simp only [Bool.and_eq_true, not_and]
        intro _
        exact hq
    · rw [List.filter_cons_of_neg hp, List.find?_cons_of_neg, ih]
      simp only [Bool.and_eq_true, not_and]
      intro hpa
      exact absurd hpa hp

theorem sum_filter_split {α : Type} (l : List α) (f : α → Int) (P Q : α → Bool) :
    ((l.filter P).map f).sum =
      ((l.filter (fun a => Q a && P a)).map f).sum +
      ((l.filter (fun a => !(Q a) && P a)).map f).sum := by
  induction l with
  | nil => simp
  | cons a t ih =>
    by_cases hP : P a = true
    · by_cases hQ : Q a = true
      · simp only [List.filter_cons, hP, hQ, Bool.and_self, if_true, Bool.not_true,
          Bool.false_and, Bool.true_and, Bool.false_eq_true, if_false,
          List.map_cons, List.sum_cons]
        rw [ih]
        omega
      · have hQ' : Q a = false := Bool.eq_false_iff.mpr hQ
        simp only [List.filter_cons, hP, hQ', Bool.not_false, Bool.false_and,
          Bool.true_and, Bool.false_eq_true, if_false, if_true, List.map_cons,
          List.sum_cons]
        rw [ih]
        omega
    · have hP' : P a = false := Bool.eq_false_iff.mpr hP
      simp only [List.filter_cons, hP', Bool.and_false, Bool.false_eq_true, if_false]
      exact ih

theorem sum_filter_map_congr {α : Type} (L : List α) (p q : α → Bool) (f g : α → Int)
    (h : ∀ i ∈ L, p i = q i ∧ f i = g i) :
    ((L.filter p).map f).sum = ((L.filter q).map g).sum := by
  induction L with
  | nil => rfl
  | cons a t ih =>
    obtain ⟨hpq, hfg⟩ := h a (by simp)
    have ht : ∀ i ∈ t, p i = q i ∧ f i = g i := fun i hi => h i (by simp [hi])
    by_cases hp : p a = true
    · rw [List.filter_cons_of_pos hp, List.filter_cons_of_pos (by rw [← hpq]; exact hp)]
      simp only [List.map_cons, List.sum_cons]
      rw [hfg, ih ht]
    · rw [List.filter_cons_of_neg hp, List.filter_cons_of_neg (by rw [← hpq]; exact hp)]
      exact ih ht

theorem find?_of_filter_singleton {α : Type} (l : List α) (p : α → Bool) (a : α)
    (h : l.filter p = [a]) : l.find? p = some a := by
  induction l with
  | nil => simp at h
  | cons b t ih =>
    by_cases hp : p b = true
    · rw [List.filter_cons_of_pos hp] at h
      rw [List.find?_cons_of_pos _ hp]
      rw [List.cons_eq_cons] at h
      rw [h.1]
    · rw [List.filter_cons_of_neg hp] at h
      rw [List.find?_cons_of_neg _ hp]
      exact ih h

theorem find?_id_eq_of_nodup (l : List Ingredient)
    (hnd : (l.map Ingredient.id).Nodup) (i : Ingredient) (hi : i ∈ l) :
    l.find? (fun j => j.id == i.id) = some i := by
  induction l with
  | nil => simp at hi
  | cons a t ih =>
    rw [List.map_cons, List.nodup_cons] at hnd
    rcases List.mem_cons.mp hi with h | h
    · subst h
      rw [List.find?_cons_of_pos _ (by simp)]
    · by_cases ha : (a.id == i.id) = true
      · exfalso
        have hmem : i.id ∈ t.map Ingredient.id := List.mem_map.mpr ⟨i, h, rfl⟩
        have haid : a.id = i.id := by simpa using ha
        rw [← haid] at hmem
        exact hnd.1 hmem
      · rw [@List.find?_cons_of_neg _ (fun j => j.id == i.id) a t ha]
        exact ih hnd.2 h

theorem ingredientName_of_mem (st : Store)
    (hids : (st.ingredients.map Ingredient.id).Nodup)
    (i : Ingredient) (hi : i ∈ st.ingredients) :
    ingredientName st i.id = some i.name := by
  rw [ingredientName, find?_id_eq_of_nodup st.ingredients hids i hi]
  rfl

theorem rows_ingredient_nodup (st : Store) (rid : Nat)
    (hpairs : (st.amounts.map (fun a => (a.recipe, a.ingredient))).Nodup) :
    ((st.amounts.filter (fun a => a.recipe == rid)).map AmountRow.ingredient).Nodup := by
  have hsub : ((st.amounts.filter (fun a => a.recipe == rid)).map
      (fun a => (a.recipe, a.ingredient))).Sublist
      (st.amounts.map (fun a => (a.recipe, a.ingredient))) :=
    List.Sublist.map _ (List.filter_sublist _)
  have hnd2 := hsub.nodup hpairs
  have hrnd : (st.amounts.filter (fun a => a.recipe == rid)).Nodup :=
    List.Nodup.of_map _ hnd2
  apply List.Nodup.map_on _ hrnd
  intro x hx y hy hxy
  have hxr := (List.mem_filter.mp hx).2
  have hyr := (List.mem_filter.mp hy).2
  simp only [beq_iff_eq] at hxr hyr
  apply List.inj_on_of_nodup_map hnd2 hx hy
  rw [hxr, hyr, hxy]

theorem pred_drop_other (i j : Nat) (hne : j ≠ i) (a : AmountRow) :
    (!(a.ingredient == i) && (a.ingredient == j)) = (a.ingredient == j) := by
  by_cases haj : (a.ingredient == j) = true
  · have h1 : a.ingredient = j := by simpa using haj
    have h2 : (a.ingredient == i) = false := by
      rw [h1]
      exact beq_eq_false_iff_ne.mpr hne
    rw [haj, h2]
    rfl
  · have haj' := Bool.eq_false_iff.mpr haj
    rw [haj']
    simp

theorem bridge_core (st : Store) (m : String) (L : List Ingredient) :
    ∀ rows : List AmountRow,
    (L.map Ingredient.id).Nodup →
    (∀ i ∈ L, ingredientName st i.id = some i.name) →
    (rows.map AmountRow.ingredient).Nodup →
    (∀ a ∈ rows, ∃ i ∈ L, i.id = a.ingredient) →
    ((L.filter (fun i => rows.any (fun a => a.ingredient == i.id) && (i.name == m))).map
        (fun i => rowAmt rows i.id)).sum
      = ((rows.filter (fun a => ingredientName st a.ingredient == some m)).map
          (fun a => a.amount)).sum := by
  induction L with
  | nil =>
    intro rows _ _ _ hfk
    have hrows : rows = [] := by
      rw [List.eq_nil_iff_forall_not_mem]
      intro a ha
      rcases hfk a ha with ⟨i, hi, _⟩
      exact absurd hi (List.not_mem_nil i)
    subst hrows
    simp
  | cons i L' ih =>
    intro rows hids hname hingnd hfk
    rw [List.map_cons, List.nodup_cons] at hids
    obtain ⟨hidnot, hids'⟩ := hids
    have hnameI : ingredientName st i.id = some i.name := hname i (by simp)
    have hname' : ∀ j ∈ L', ingredientName st j.id = some j.name :=
      fun j hj => hname j (by simp [hj])
    -- facts about the rows that are not about ingredient i
    have hOsubnd : ((rows.filter (fun a => !(a.ingredient == i.id))).map
        AmountRow.ingredient).Nodup :=
      (List.Sublist.map _ (List.filter_sublist rows)).nodup hingnd
    have hOfk : ∀ a ∈ rows.filter (fun a => !(a.ingredient == i.id)),
        ∃ j ∈ L', j.id = a.ingredient := by
      intro a ha
      obtain ⟨hmem, hnoti⟩ := List.mem_filter.mp ha
      rcases hfk a hmem with ⟨k, hk, hkid⟩
      rcases List.mem_cons.mp hk with h | h
      · exfalso
        subst h
        rw [← hkid] at hnoti
        simp at hnoti
      · exact ⟨k, h, hkid⟩
    -- for every later ingredient, presence and amount agree on the reduced rows
    have hLcong : ∀ j ∈ L',
        ((rows.any (fun a => a.ingredient == j.id) && (j.name == m)) =
          ((rows.filter (fun a => !(a.ingredient == i.id))).any
            (fun a => a.ingredient == j.id) && (j.name == m))) ∧
        rowAmt rows j.id =
          rowAmt (rows.filter (fun a => !(a.ingredient == i.id))) j.id := by
      intro j hj
      have hne : j.id ≠ i.id := by
        intro h
        exact hidnot (h ▸ List.mem_map.mpr ⟨j, hj, rfl⟩)
      constructor
      · have hany : (rows.filter (fun a => !(a.ingredient == i.id))).any
            (fun a => a.ingredient == j.id) =
            rows.any (fun a => a.ingredient == j.id) := by
          rw [List.any_filter]
          exact any_congr_pointwise rows _ _ (fun a _ => pred_drop_other i.id j.id hne a)
        rw [hany]
      · rw [rowAmt, rowAmt, find?_filter_comm]
        rw [find?_congr_pointwise rows _ _ (fun a _ => pred_drop_other i.id j.id hne a)]
    have hIH := ih (rows.filter (fun a => !(a.ingredient == i.id))) hids' hname' hOsubnd hOfk
    have htail : ((L'.filter (fun j => rows.any (fun a => a.ingredient == j.id) &&
          (j.name == m))).map (fun j => rowAmt rows j.id)).sum =
        (((rows.filter (fun a => !(a.ingredient == i.id))).filter
          (fun a => ingredientName st a.ingredient == some m)).map
          (fun a => a.amount)).sum := by
      rw [← hIH]
      exact sum_filter_map_congr L' _ _ _ _ hLcong
    have hsplit := sum_filter_split rows (fun a => a.amount)
      (fun a => ingredientName st a.ingredient == some m)
      (fun a => a.ingredient == i.id)
    have hsecond : ((rows.filter (fun a => !(a.ingredient == i.id) &&
          (ingredientName st a.ingredient == some m))).map (fun a => a.amount)).sum =
        (((rows.filter (fun a => !(a.ingredient == i.id))).filter
          (fun a => ingredientName st a.ingredient == some m)).map
          (fun a => a.amount)).sum := by
      rw [List.filter_filter]
      apply congrArg
      apply congrArg
      exact List.filter_congr (fun a _ => Bool.and_comm _ _)
    by_cases hc : (rows.any (fun a => a.ingredient == i.id) && (i.name == m)) = true
    · rw [Bool.and_eq_true] at hc
      obtain ⟨hanyI, hnameM⟩ := hc
      have hcb : ((rows.any fun a => a.ingredient == i.id) && (i.name == m)) = true := by
        rw [hanyI, hnameM]
        rfl
      have hnm : i.name = m := by simpa using hnameM
      -- the unique row of ingredient i
      have hone : (rows.filter (fun a => a.ingredient == i.id)).length = 1 := by
        have hsubnd : ((rows.filter (fun a => a.ingredient == i.id)).map
            AmountRow.ingredient).Nodup :=
          (List.Sublist.map _ (List.filter_sublist rows)).nodup hingnd
        have hall : ∀ x ∈ (rows.filter (fun a => a.ingredient == i.id)).map
            AmountRow.ingredient, x = i.id := by
          intro x hx
          rcases List.mem_map.mp hx with ⟨a, ha, hax⟩
          have := (List.mem_filter.mp ha).2
          rw [← hax]
          simpa using this
        have hle := length_le_one_of_nodup_all_eq _ i.id hsubnd hall
        rw [List.length_map] at hle
        rcases List.any_eq_true.mp hanyI with ⟨a, ha, hpa⟩
        have hmem : a ∈ rows.filter (fun a => a.ingredient == i.id) :=
          List.mem_filter.mpr ⟨ha, hpa⟩
        have hpos := List.length_pos.mpr (List.ne_nil_of_mem hmem)
        omega
      rcases List.length_eq_one.mp hone with ⟨a1, ha1⟩
      have ha1mem : a1 ∈ rows.filter (fun a => a.ingredient == i.id) := by
        rw [ha1]
        simp
      have ha1i : a1.ingredient = i.id := by
        have := (List.mem_filter.mp ha1mem).2
        simpa using this
      have hfind : rows.find? (fun a => a.ingredient == i.id) = some a1 :=
        find?_of_filter_singleton rows _ a1 ha1
      have hamt : rowAmt rows i.id = a1.amount := by
        rw [rowAmt, hfind]
      have hPa1 : (ingredientName st a1.ingredient == some m) = true := by
        rw [ha1i, hnameI, hnm]
        simp
      have hfirst : ((rows.filter (fun a => (a.ingredient == i.id) &&
            (ingredientName st a.ingredient == some m))).map (fun a => a.amount)).sum
          = a1.amount := by
        have hcomm : rows.filter (fun a => (a.ingredient == i.id) &&
              (ingredientName st a.ingredient == some m)) =
            rows.filter (fun a => (ingredientName st a.ingredient == some m) &&
              (a.ingredient == i.id)) :=
          List.filter_congr (fun a _ => Bool.and_comm _ _)
        rw [hcomm, ← List.filter_filter, ha1]
        simp [List.filter_cons, hPa1]
      simp only [List.filter_cons, hcb, if_true, List.map_cons, List.sum_cons]
      rw [hamt, htail, hsplit, hfirst, hsecond]
    · have hc' := Bool.eq_false_iff.mpr hc
      have hfirstnil : rows.filter (fun a => (a.ingredient == i.id) &&
            (ingredientName st a.ingredient == some m)) = [] := by
        apply List.filter_eq_nil_iff.mpr
        intro a ha hQP
        rw [Bool.and_eq_true] at hQP
        obtain ⟨hQ, hP⟩ := hQP
        have hai : a.ingredient = i.id := by simpa using hQ
        have hany : rows.any (fun a => a.ingredient == i.id) = true :=
          List.any_eq_true.mpr ⟨a, ha, hQ⟩
        have hPm : (i.name == m) = true := by
          rw [hai, hnameI] at hP
          simpa using hP
        rw [Bool.eq_false_iff] at hc'
        exact hc' (by rw [hany, hPm]; rfl)
      simp only [List.filter_cons, hc', Bool.false_eq_true, if_false]
      rw [htail, hsplit, hfirstnil, hsecond]
      simp

theorem per_recipe_total (st : Store) (rid : Nat) (m : String)
    (hids : (st.ingredients.map Ingredient.id).Nodup)
    (hpairs : (st.amounts.map (fun a => (a.recipe, a.ingredient))).Nodup)
    (hfk : ∀ a ∈ st.amounts, ∃ i ∈ st.ingredients, i.id = a.ingredient) :
    (((recipeIngredients st rid).filter (fun i => i.name == m)).map
        (fun i => amountGet st rid i.id)).sum = assocSumFor st rid m := by
  have hingnd := rows_ingredient_nodup st rid hpairs
  have hfkRows : ∀ a ∈ st.amounts.filter (fun a => a.recipe == rid),
      ∃ i ∈ st.ingredients, i.id = a.ingredient :=
    fun a ha => hfk a (List.mem_filter.mp ha).1
  have hb := bridge_core st m st.ingredients
    (st.amounts.filter (fun a => a.recipe == rid)) hids
    (fun i hi => ingredientName_of_mem st hids i hi) hingnd hfkRows
  have hlhs : (((recipeIngredients st rid).filter (fun i => i.name == m)).map
      (fun i => amountGet st rid i.id)).sum =
      ((st.ingredients.filter (fun i =>
          (st.amounts.filter (fun a => a.recipe == rid)).any
            (fun a => a.ingredient == i.id) && (i.name == m))).map
        (fun i => rowAmt (st.amounts.filter (fun a => a.recipe == rid)) i.id)).sum := by
    rw [recipeIngredients, List.filter_filter]
    apply sum_filter_map_congr
    intro i _
    constructor
    · rw [List.any_filter]
      exact Bool.and_comm _ _
    · simp only [amountGet, rowAmt]
      rw [find?_filter_comm]
  have hrhs : (((st.amounts.filter (fun a => a.recipe == rid)).filter
      (fun a => ingredientName st a.ingredient == some m)).map (fun a => a.amount)).sum =
      assocSumFor st rid m := by
    rw [List.filter_filter, assocSumFor]
    apply congrArg
    apply congrArg
    exact List.filter_congr (fun a _ => Bool.and_comm _ _)
  rw [hlhs, hb, hrhs]

/-- C7: the aggregation sums quantities keyed by ingredient name: under the
database invariants (unique ingredient ids, the unique (recipe, ingredient)
constraint on Amount rows, and foreign-key integrity of Amount.ingredient),
the total the shopping list records for any name equals the sum, over every
recipe in the aggregation input, of the quantities of every association whose
ingredient carries that name. -/
theorem download_shopping_cart_sums_by_name (st : Store) (u : Nat) (name : String)
    (hids : (st.ingredients.map Ingredient.id).Nodup)
    (hpairs : (st.amounts.map (fun a => (a.recipe, a.ingredient))).Nodup)
    (hfk : ∀ a ∈ st.amounts, ∃ i ∈ st.ingredients, i.id = a.ingredient) :
    totalFor (download_shopping_cart st u) name =
      ((userRecipes st u).map (fun r => assocSumFor st r.id name)).sum := by
  rw [download_total st u name]
  apply congrArg List.sum
  apply List.map_congr_left
  intro r _
  exact per_recipe_total st r.id name hids hpairs hfk

/-- Witness for C7, the spec's example: recipes 5 and 6 both contain carrot
(unit kg) with quantities 2 and 3; the aggregation yields the single entry
(carrot, 5) and the document line `carrot (kg) — 5`. -/
theorem download_shopping_cart_sums_by_name_witness :
    (((⟨[⟨10, "carrot", "kg"⟩], [⟨5, 1⟩, ⟨6, 1⟩], [⟨1, 5, 10, 2⟩, ⟨2, 6, 10, 3⟩],
        [], 3⟩ : Store).ingredients.map Ingredient.id).Nodup ∧
      ((⟨[⟨10, "carrot", "kg"⟩], [⟨5, 1⟩, ⟨6, 1⟩], [⟨1, 5, 10, 2⟩, ⟨2, 6, 10, 3⟩],
        [], 3⟩ : Store).amounts.map (fun a => (a.recipe, a.ingredient))).Nodup ∧
      (∀ a ∈ (⟨[⟨10, "carrot", "kg"⟩], [⟨5, 1⟩, ⟨6, 1⟩], [⟨1, 5, 10, 2⟩, ⟨2, 6, 10, 3⟩],
        [], 3⟩ : Store).amounts,
        ∃ i ∈ (⟨[⟨10, "carrot", "kg"⟩], [⟨5, 1⟩, ⟨6, 1⟩],
          [⟨1, 5, 10, 2⟩, ⟨2, 6, 10, 3⟩], [], 3⟩ : Store).ingredients,
          i.id = a.ingredient)) ∧
    totalFor (download_shopping_cart ⟨[⟨10, "carrot", "kg"⟩], [⟨5, 1⟩, ⟨6, 1⟩],
        [⟨1, 5, 10, 2⟩, ⟨2, 6, 10, 3⟩], [], 3⟩ 1) "carrot" =
      ((userRecipes ⟨[⟨10, "carrot", "kg"⟩], [⟨5, 1⟩, ⟨6, 1⟩],
          [⟨1, 5, 10, 2⟩, ⟨2, 6, 10, 3⟩], [], 3⟩ 1).map
        (fun r => assocSumFor ⟨[⟨10, "carrot", "kg"⟩], [⟨5, 1⟩, ⟨6, 1⟩],
          [⟨1, 5, 10, 2⟩, ⟨2, 6, 10, 3⟩], [], 3⟩ r.id "carrot")).sum ∧
    download_shopping_cart ⟨[⟨10, "carrot", "kg"⟩], [⟨5, 1⟩, ⟨6, 1⟩],
        [⟨1, 5, 10, 2⟩, ⟨2, 6, 10, 3⟩], [], 3⟩ 1 = [("carrot", 5)] ∧
    shoppingCartDocument ⟨[⟨10, "carrot", "kg"⟩], [⟨5, 1⟩, ⟨6, 1⟩],
        [⟨1, 5, 10, 2⟩, ⟨2, 6, 10, 3⟩], [], 3⟩ 1 = ["Список покупок:", "carrot (kg) — 5"] :=
  ⟨⟨by decide, by decide, by decide⟩,
    download_shopping_cart_sums_by_name
      ⟨[⟨10, "carrot", "kg"⟩], [⟨5, 1⟩, ⟨6, 1⟩], [⟨1, 5, 10, 2⟩, ⟨2, 6, 10, 3⟩], [], 3⟩
      1 "carrot" (by decide) (by decide) (by decide),
    by decide, by rfl⟩

end Foodgram
